import Mathlib

/-!
Shallow embedding of `src/bootstrap_handler.rs` from maidsafe/crust.

The bootstrap handler maintains an on-disk cache of network contacts.  Its
state is the backing file, modelled here as `Option (List Nat)`: `none` is an
absent file, `some bytes` is a file holding those bytes.  File reads/writes are
deterministic in this model (writes succeed); read errors arise from an absent
file or from bytes the decoder rejects, exactly the failure modes the source
distinguishes.
-/

namespace Crust

/-- Modelled from the spec: the `Contact` value type lives in `config_utils`
(not under `src/`).  Per the spec it is "a reachable network endpoint
descriptor (transport + address)" with structural equality.  An IPv4 socket
address: four octets plus a port, as in the source's tests. -/
structure SocketAddrV4 where
  ip0 : Nat
  ip1 : Nat
  ip2 : Nat
  ip3 : Nat
  port : Nat
deriving DecidableEq, Repr

/-- Modelled from the spec: `transport::Endpoint` is not under `src/`; the
spec calls it the "transport kind" of a contact. -/
inductive Endpoint where
  | tcp (addr : SocketAddrV4)
  | utp (addr : SocketAddrV4)
deriving DecidableEq, Repr

/-- Modelled from the spec: a contact is an immutable value wrapping an
endpoint; equality is structural. -/
structure Contact where
  endpoint : Endpoint
deriving DecidableEq, Repr

/-- `Contacts` is `Vec<Contact>` in the source. -/
abbrev Contacts := List Contact

/-- A convenient concrete contact for counterexamples and witnesses. -/
def mkC (n : Nat) : Contact := ⟨Endpoint.tcp ⟨n, 0, 0, 0, 0⟩⟩

/-- `MAX_CONTACTS` from `bootstrap_handler.rs` line 28. -/
def MAX_CONTACTS : Nat := 1500

/-! ### Serialization collaborator

Modelled from the spec: the source delegates to `rustc_serialize::json`, an
external crate.  The spec treats it as an opaque collaborator:
`serialize(list) → bytes` and `deserialize(bytes) → Option<list>`, a
structured self-delimiting encoding of the ordered contact sequence, with
`deserialize` yielding nothing (not an error) on malformed input.  We use a
simple self-delimiting byte encoding with those properties. -/

/-- Encode a natural number self-delimitingly (a run of 1-bytes closed by a
0-byte). -/
def encodeNat (n : Nat) : List Nat := List.replicate n 1 ++ [0]

/-- Decode one natural number from the front of a buffer, returning the rest. -/
def decodeNat : List Nat → Option (Nat × List Nat)
  | [] => none
  | 0 :: rest => some (0, rest)
  | 1 :: rest =>
    match decodeNat rest with
    | some (n, r) => some (n + 1, r)
    | none => none
  | _ => none

/-- Encode a socket address field by field. -/
def encodeAddr (a : SocketAddrV4) : List Nat :=
  encodeNat a.ip0 ++ encodeNat a.ip1 ++ encodeNat a.ip2 ++ encodeNat a.ip3 ++
    encodeNat a.port

/-- Decode a socket address from the front of a buffer. -/
def decodeAddr (b : List Nat) : Option (SocketAddrV4 × List Nat) :=
  match decodeNat b with
  | none => none
  | some (i0, r0) =>
    match decodeNat r0 with
    | none => none
    | some (i1, r1) =>
      match decodeNat r1 with
      | none => none
      | some (i2, r2) =>
        match decodeNat r2 with
        | none => none
        | some (i3, r3) =>
          match decodeNat r3 with
          | none => none
          | some (p, r4) => some (⟨i0, i1, i2, i3, p⟩, r4)

/-- Encode an endpoint: a transport tag byte followed by the address. -/
def encodeEndpoint : Endpoint → List Nat
  | Endpoint.tcp a => 0 :: encodeAddr a
  | Endpoint.utp a => 1 :: encodeAddr a

/-- Decode an endpoint from the front of a buffer. -/
def decodeEndpoint : List Nat → Option (Endpoint × List Nat)
  | 0 :: rest =>
    match decodeAddr rest with
    | some (a, r) => some (Endpoint.tcp a, r)
    | none => none
  | 1 :: rest =>
    match decodeAddr rest with
    | some (a, r) => some (Endpoint.utp a, r)
    | none => none
  | _ => none

/-- Encode one contact. -/
def encodeContact (c : Contact) : List Nat := encodeEndpoint c.endpoint

/-- Decode one contact from the front of a buffer. -/
def decodeContact (b : List Nat) : Option (Contact × List Nat) :=
  match decodeEndpoint b with
  | some (e, r) => some (⟨e⟩, r)
  | none => none

/-- Encode a contact list back to back. -/
def encodeContactList : Contacts → List Nat
  | [] => []
  | c :: rest => encodeContact c ++ encodeContactList rest

/-- Decode exactly `n` contacts from the front of a buffer. -/
def decodeContactsAux : Nat → List Nat → Option (Contacts × List Nat)
  | 0, b => some ([], b)
  | n + 1, b =>
    match decodeContact b with
    | none => none
    | some (c, r) =>
      match decodeContactsAux n r with
      | none => none
      | some (cs, r2) => some (c :: cs, r2)

/-- `serialise_contacts` (`bootstrap_handler.rs` lines 36-39): encode a
contact list to bytes.  Length-prefixed encoding of the ordered sequence. -/
def serialise_contacts (contacts : Contacts) : List Nat :=
  encodeNat contacts.length ++ encodeContactList contacts

/-- `parse_contacts` (`bootstrap_handler.rs` lines 41-45): decode bytes back
to a contact list, `none` on malformed input. -/
def parse_contacts (buffer : List Nat) : Option Contacts :=
  match decodeNat buffer with
  | none => none
  | some (n, r) =>
    match decodeContactsAux n r with
    | none => none
    | some (cs, rest) => if rest = [] then some cs else none

theorem decodeNat_encodeNat (n : Nat) (tail : List Nat) :
    decodeNat (encodeNat n ++ tail) = some (n, tail) := by
  induction n with
  | zero => simp [encodeNat, decodeNat]
  | succ k ih =>
    simp only [encodeNat, List.replicate_succ, List.cons_append, decodeNat]
    simp only [encodeNat] at ih
    simp only [List.append_eq, List.append_assoc] at ih ⊢
    rw [ih]

theorem decodeAddr_encodeAddr (a : SocketAddrV4) (tail : List Nat) :
    decodeAddr (encodeAddr a ++ tail) = some (a, tail) := by
  simp [encodeAddr, decodeAddr, List.append_assoc, decodeNat_encodeNat]

theorem decodeEndpoint_encodeEndpoint (e : Endpoint) (tail : List Nat) :
    decodeEndpoint (encodeEndpoint e ++ tail) = some (e, tail) := by
  cases e with
  | tcp a => simp [encodeEndpoint, decodeEndpoint, decodeAddr_encodeAddr]
  | utp a => simp [encodeEndpoint, decodeEndpoint, decodeAddr_encodeAddr]

theorem decodeContact_encodeContact (c : Contact) (tail : List Nat) :
    decodeContact (encodeContact c ++ tail) = some (c, tail) := by
  simp [encodeContact, decodeContact, decodeEndpoint_encodeEndpoint]

theorem decodeContactsAux_encodeContactList (l : Contacts) (tail : List Nat) :
    decodeContactsAux l.length (encodeContactList l ++ tail) = some (l, tail) := by
  induction l generalizing tail with
  | nil => simp [encodeContactList, decodeContactsAux]
  | cons c rest ih =>
    simp only [List.length_cons, encodeContactList, List.append_assoc,
      decodeContactsAux, decodeContact_encodeContact, ih]

/-- Round-trip for the serialization collaborator. -/
theorem parse_serialise (l : Contacts) :
    parse_contacts (serialise_contacts l) = some l := by
  have h := decodeContactsAux_encodeContactList l []
  simp only [List.append_nil] at h
  have h2 := decodeNat_encodeNat l.length (encodeContactList l)
  simp [parse_contacts, serialise_contacts, h2, h]

/-! ### The bootstrap handler

The backing file is the only state: `none` = absent, `some bytes` = present.
Writes are modelled as succeeding; read failures are an absent file
(`IOError.notFound`, from `File::open`) or undecodable content
(`IOError.decodeFailure`, from `json::decode` / non-UTF8 content). -/

/-- The error kinds the source distinguishes on the read path. -/
inductive IOError where
  | notFound
  | decodeFailure
deriving DecidableEq, Repr

/-- The backing file: absent, or holding bytes. -/
abbrev FileState := Option (List Nat)

/-- `read_bootstrap_file` (`bootstrap_handler.rs` lines 86-93): `File::open`
propagates not-found via `try!`; decode failure is mapped to a recoverable
`io::Error` (kind `Other`). -/
def read_bootstrap_file (fs : FileState) : Except IOError Contacts :=
  match fs with
  | none => Except.error IOError.notFound
  | some buffer =>
    match parse_contacts buffer with
    | some contacts => Except.ok contacts
    | none => Except.error IOError.decodeFailure

/-- The `unwrap_or_else(|e| { println!(...); Contacts::new() })` pattern used
at lines 97-101 and 114-119: any read error is logged and replaced by the
empty list. -/
def read_or_empty (fs : FileState) : Contacts :=
  match read_bootstrap_file fs with
  | Except.ok l => l
  | Except.error _ => []

/-- `oldest_contacts` (`bootstrap_handler.rs` lines 96-104):
`contacts.iter().rev().take(n)` over the read-or-empty list, always `Ok`. -/
def oldest_contacts (fs : FileState) (n : Nat) : Except IOError Contacts :=
  let bootstrap_contacts := read_or_empty fs
  Except.ok (bootstrap_contacts.reverse.take n)

/-- `itertools::unique` with an explicit seen-set: an element is kept iff it
has not been seen before (first occurrence wins). -/
def uniqueAux : Contacts → Contacts → Contacts
  | _, [] => []
  | seen, a :: rest =>
    if a ∈ seen then uniqueAux seen rest else a :: uniqueAux (a :: seen) rest

/-- The `.unique()` call in `write_bootstrap_file` line 107. -/
def unique (l : Contacts) : Contacts := uniqueAux [] l

/-- `write_bootstrap_file` (`bootstrap_handler.rs` lines 106-111): dedup with
`unique()`, then overwrite the file; returns the new file state. -/
def write_bootstrap_file (contacts : Contacts) : Except IOError FileState :=
  Except.ok (some (serialise_contacts (unique contacts)))

/-- The merge loop of `insert_contacts` (lines 130-136): while the list is
below `MAX_CONTACTS` and `contacts` is non-empty, pop the front of `contacts`
and insert it at index 0. -/
def mergeLoop : Contacts → Contacts → Contacts
  | bootstrap_contacts, [] => bootstrap_contacts
  | bootstrap_contacts, a :: rest =>
    if bootstrap_contacts.length < MAX_CONTACTS then
      mergeLoop (a :: bootstrap_contacts) rest
    else
      bootstrap_contacts

/-- The pure list transformation of `insert_contacts` (lines 121-137) before
the final write: prune, filter the additions, then merge (verbatim assignment
when the pruned list is empty, the prepend loop otherwise). -/
def merge_core (bootstrap_contacts contacts prune : Contacts) : Contacts :=
  let b1 :=
    if 0 < prune.length then
      bootstrap_contacts.filter (fun x => decide (x ∉ prune))
    else bootstrap_contacts
  let c1 := contacts.filter (fun x => decide (x ∉ b1))
  if b1.length = 0 then c1 else mergeLoop b1 c1

/-- The deduplicated list actually persisted by `insert_contacts`. -/
def writtenList (fs : FileState) (contacts prune : Contacts) : Contacts :=
  unique (merge_core (read_or_empty fs) contacts prune)

/-- `insert_contacts` (`bootstrap_handler.rs` lines 113-140): read-or-empty,
prune, filter, merge, then write the deduplicated result. -/
def insert_contacts (fs : FileState) (contacts prune : Contacts) :
    Except IOError FileState :=
  write_bootstrap_file (merge_core (read_or_empty fs) contacts prune)

/-- `update_contacts` (`bootstrap_handler.rs` lines 77-84): delegates to
`insert_contacts`; the staleness check is an empty placeholder in the
source. -/
def update_contacts (fs : FileState) (contacts prune : Contacts) :
    Except IOError FileState :=
  insert_contacts fs contacts prune

/-- Deduplication as the spec words it: keep the first occurrence of each
element, in order, deleting all later structural duplicates. -/
def dedupFirstSpec : Contacts → Contacts
  | [] => []
  | a :: rest => a :: dedupFirstSpec (rest.filter (fun b => decide (b ≠ a)))
termination_by l => l.length
decreasing_by
  simp only [List.length_cons]
  exact Nat.lt_succ_of_le (List.length_filter_le _ rest)

/-! ### Basic lemmas about the embedded operations -/

theorem read_serialise (l : Contacts) :
    read_bootstrap_file (some (serialise_contacts l)) = Except.ok l := by
  simp [read_bootstrap_file, parse_serialise]

theorem read_or_empty_serialise (l : Contacts) :
    read_or_empty (some (serialise_contacts l)) = l := by
  simp [read_or_empty, read_serialise]

theorem update_eq (fs : FileState) (contacts prune : Contacts) :
    update_contacts fs contacts prune =
      Except.ok (some (serialise_contacts (writtenList fs contacts prune))) := rfl

theorem serialise_injective (l1 l2 : Contacts)
    (h : serialise_contacts l1 = serialise_contacts l2) : l1 = l2 := by
  have h1 := parse_serialise l1
  rw [h, parse_serialise] at h1
  exact (Option.some.injEq _ _).mp h1.symm

theorem mem_uniqueAux (a : Contact) (seen l : Contacts) :
    a ∈ uniqueAux seen l ↔ a ∈ l ∧ a ∉ seen := by
  induction l generalizing seen with
  | nil => simp [uniqueAux]
  | cons b rest ih =>
    rw [uniqueAux]
    by_cases hb : b ∈ seen
    · rw [if_pos hb, ih]
      simp only [List.mem_cons]
      constructor
      · rintro ⟨h1, h2⟩
        exact ⟨Or.inr h1, h2⟩
      · rintro ⟨h1 | h1, h2⟩
        · exact absurd (h1 ▸ hb) h2
        · exact ⟨h1, h2⟩
    · rw [if_neg hb]
      simp only [List.mem_cons, ih, List.mem_cons]
      constructor
      · rintro (h | ⟨h1, h2⟩)
        · subst h; exact ⟨Or.inl rfl, hb⟩
        · exact ⟨Or.inr h1, fun hc => h2 (Or.inr hc)⟩
      · rintro ⟨h | h, h2⟩
        · exact Or.inl h
        · by_cases hab : a = b
          · exact Or.inl hab
          · refine Or.inr ⟨h, ?_⟩
            rintro (h3 | h3)
            · exact hab h3
            · exact h2 h3

theorem uniqueAux_sublist (seen l : Contacts) : (uniqueAux seen l).Sublist l := by
  induction l generalizing seen with
  | nil => simp [uniqueAux]
  | cons b rest ih =>
    rw [uniqueAux]
    by_cases hb : b ∈ seen
    · rw [if_pos hb]
      exact (ih seen).cons b
    · rw [if_neg hb]
      exact (ih (b :: seen)).cons₂ b

theorem nodup_uniqueAux (seen l : Contacts) : (uniqueAux seen l).Nodup := by
  induction l generalizing seen with
  | nil => simp [uniqueAux]
  | cons b rest ih =>
    rw [uniqueAux]
    by_cases hb : b ∈ seen
    · rw [if_pos hb]; exact ih seen
    · rw [if_neg hb]
      refine List.nodup_cons.mpr ⟨fun hc => ?_, ih (b :: seen)⟩
      exact ((mem_uniqueAux b (b :: seen) rest).mp hc).2 (List.mem_cons_self b seen)

theorem uniqueAux_eq_self (seen l : Contacts) (hl : l.Nodup)
    (hs : ∀ a ∈ l, a ∉ seen) : uniqueAux seen l = l := by
  induction l generalizing seen with
  | nil => simp [uniqueAux]
  | cons b rest ih =>
    rw [uniqueAux, if_neg (hs b (List.mem_cons_self b rest))]
    have hrest : rest.Nodup := (List.nodup_cons.mp hl).2
    have hb : b ∉ rest := (List.nodup_cons.mp hl).1
    congr 1
    refine ih (b :: seen) hrest fun a ha hc => ?_
    rcases List.mem_cons.mp hc with h | h
    · exact hb (h ▸ ha)
    · exact hs a (List.mem_cons_of_mem b ha) h

theorem uniqueAux_eq_nil (seen l : Contacts) (h : ∀ a ∈ l, a ∈ seen) :
    uniqueAux seen l = [] := by
  induction l generalizing seen with
  | nil => simp [uniqueAux]
  | cons b rest ih =>
    rw [uniqueAux, if_pos (h b (List.mem_cons_self b rest))]
    exact ih seen fun a ha => h a (List.mem_cons_of_mem b ha)

theorem mem_unique (a : Contact) (l : Contacts) : a ∈ unique l ↔ a ∈ l := by
  rw [unique, mem_uniqueAux]
  simp

theorem nodup_unique (l : Contacts) : (unique l).Nodup := nodup_uniqueAux [] l

theorem unique_sublist (l : Contacts) : (unique l).Sublist l := uniqueAux_sublist [] l

theorem unique_eq_self (l : Contacts) (hl : l.Nodup) : unique l = l :=
  uniqueAux_eq_self [] l hl (by simp)

theorem unique_replicate (n : Nat) (x : Contact) :
    unique (List.replicate (n + 1) x) = [x] := by
  rw [List.replicate_succ, unique, uniqueAux, if_neg (List.not_mem_nil x)]
  rw [uniqueAux_eq_nil]
  intro a ha
  rw [List.eq_of_mem_replicate ha]
  exact List.mem_cons_self x []

theorem dedupFirstSpec_cons (a : Contact) (rest : Contacts) :
    dedupFirstSpec (a :: rest) =
      a :: dedupFirstSpec (rest.filter (fun b => decide (b ≠ a))) := by
  simp [dedupFirstSpec]

theorem uniqueAux_eq_dedupFirstSpec (l seen : Contacts) :
    uniqueAux seen l = dedupFirstSpec (l.filter (fun b => decide (b ∉ seen))) := by
  induction l generalizing seen with
  | nil => simp [uniqueAux, dedupFirstSpec]
  | cons a rest ih =>
    rw [uniqueAux, List.filter_cons]
    by_cases ha : a ∈ seen
    · rw [if_pos ha]
      have hd : decide (a ∉ seen) = false := by simp [ha]
      simp only [hd, Bool.false_eq_true, if_false]
      exact ih seen
    · rw [if_neg ha]
      have hd : decide (a ∉ seen) = true := by simp [ha]
      simp only [hd, if_true]
      rw [dedupFirstSpec_cons]
      congr 1
      rw [ih (a :: seen), List.filter_filter]
      refine congrArg dedupFirstSpec (List.filter_congr fun b _ => ?_)
      by_cases h1 : b = a <;> by_cases h2 : b ∈ seen <;>
        simp [h1, h2, List.mem_cons]

theorem unique_eq_dedupFirstSpec (l : Contacts) : unique l = dedupFirstSpec l := by
  rw [unique, uniqueAux_eq_dedupFirstSpec]
  congr 1
  refine List.filter_eq_self.mpr fun a _ => ?_
  simp

theorem mergeLoop_eq (L add : Contacts) :
    mergeLoop L add = (add.take (MAX_CONTACTS - L.length)).reverse ++ L := by
  induction add generalizing L with
  | nil => simp [mergeLoop]
  | cons a rest ih =>
    rw [mergeLoop]
    by_cases h : L.length < MAX_CONTACTS
    · rw [if_pos h, ih]
      have hk : MAX_CONTACTS - L.length = (MAX_CONTACTS - (a :: L).length) + 1 := by
        simp only [List.length_cons]; omega
      rw [hk, List.take_succ_cons, List.reverse_cons, List.length_cons]
      simp [List.append_assoc]
    · rw [if_neg h]
      have h0 : MAX_CONTACTS - L.length = 0 := by omega
      rw [h0]
      simp

theorem uniqueAux_cons_not_mem (a : Contact) (seen l : Contacts) (h : a ∉ l) :
    uniqueAux (a :: seen) l = uniqueAux seen l := by
  rw [uniqueAux_eq_dedupFirstSpec, uniqueAux_eq_dedupFirstSpec]
  refine congrArg dedupFirstSpec (List.filter_congr fun b hb => ?_)
  have hba : b ≠ a := fun hc => h (hc ▸ hb)
  simp [List.mem_cons, hba]

theorem merge_core_no_prune (b C : Contacts) :
    merge_core b C [] =
      if b.length = 0 then C.filter (fun x => decide (x ∉ b))
      else mergeLoop b (C.filter (fun x => decide (x ∉ b))) := by
  simp [merge_core]

theorem merge_core_nil (C : Contacts) : merge_core [] C [] = C := by
  rw [merge_core_no_prune]
  simp

theorem merge_core_prune_pos (b C prune : Contacts) (h : 0 < prune.length) :
    merge_core b C prune =
      if (b.filter (fun x => decide (x ∉ prune))).length = 0 then
        C.filter (fun x => decide (x ∉ b.filter (fun y => decide (y ∉ prune))))
      else
        mergeLoop (b.filter (fun x => decide (x ∉ prune)))
          (C.filter (fun x => decide (x ∉ b.filter (fun y => decide (y ∉ prune))))) := by
  simp only [merge_core]
  rw [if_pos h]

/-! ### Claims -/

/-- C9: deserializing the bytes produced by serializing any valid contact
list L — including the empty list and lists containing duplicates — yields L
exactly: the serialize/deserialize round-trip is the identity. -/
theorem c9_serialise_roundtrip (l : Contacts) :
    parse_contacts (serialise_contacts l) = some l := parse_serialise l

/-- C5 counterexample: with the backing file absent, `read_bootstrap_file`
returns a not-found error rather than the empty list the claim asserts
(`File::open` failure is propagated by `try!`). -/
theorem c5_counterexample :
    read_bootstrap_file none ≠ Except.ok ([] : Contacts) ∧
    read_bootstrap_file none = Except.error IOError.notFound := by
  refine ⟨fun h => ?_, rfl⟩
  rw [read_bootstrap_file] at h
  exact Except.noConfusion h

/-- C5 amended: `read_bootstrap_file` propagates a not-found error when the
file is absent (callers convert that to the empty list), returns a recoverable
decode error on structurally invalid content, and returns the stored list on
valid content, so absent and corrupt states are distinguished by error kind. -/
theorem c5_read_errors (b : List Nat) (l : Contacts)
    (hb : parse_contacts b = none) :
    read_bootstrap_file none = Except.error IOError.notFound ∧
    read_bootstrap_file (some b) = Except.error IOError.decodeFailure ∧
    read_bootstrap_file (some (serialise_contacts l)) = Except.ok l := by
  refine ⟨rfl, ?_, read_serialise l⟩
  simp [read_bootstrap_file, hb]

/-- C5 witness: the amended statement at the concrete corrupt buffer `[2]`
and the concrete stored list `[mkC 0]`. -/
theorem c5_read_errors_witness :
    read_bootstrap_file none = Except.error IOError.notFound ∧
    read_bootstrap_file (some [2]) = Except.error IOError.decodeFailure ∧
    read_bootstrap_file (some (serialise_contacts [mkC 0])) = Except.ok [mkC 0] :=
  c5_read_errors [2] [mkC 0] rfl

/-- C4 counterexample: on a backing file that exists but cannot be decoded,
`update_contacts` succeeds — it silently proceeds with the empty list instead
of returning an error as the claim asserts. -/
theorem c4_counterexample :
    parse_contacts [2] = none ∧
    update_contacts (some [2]) [mkC 0] [] =
      Except.ok (some (serialise_contacts [mkC 0])) := by
  refine ⟨rfl, ?_⟩
  rw [update_eq]
  have h : writtenList (some [2]) [mkC 0] [] = [mkC 0] := by decide
  rw [h]

/-- C4 amended: `update_contacts` never reports read failures: any
unreadable or undecodable backing file — not only the not-found case — is
treated as the empty list (logged) and the update proceeds and succeeds,
behaving exactly as it does on an absent file. -/
theorem c4_update_swallows_read_errors (b : List Nat) (add prune : Contacts)
    (hb : parse_contacts b = none) :
    update_contacts (some b) add prune = update_contacts none add prune ∧
    update_contacts (some b) add prune =
      Except.ok (some (serialise_contacts (unique (merge_core [] add prune)))) := by
  have h : read_or_empty (some b) = [] := by
    simp [read_or_empty, read_bootstrap_file, hb]
  have h2 : read_or_empty none = [] := rfl
  constructor
  · rw [update_eq, update_eq, writtenList, writtenList, h, h2]
  · rw [update_eq, writtenList, h]

/-- C4 witness: the amended statement at the concrete corrupt buffer `[2]`. -/
theorem c4_update_swallows_read_errors_witness :
    update_contacts (some [2]) [mkC 0] [] = update_contacts none [mkC 0] [] ∧
    update_contacts (some [2]) [mkC 0] [] =
      Except.ok (some (serialise_contacts (unique (merge_core [] [mkC 0] [])))) :=
  c4_update_swallows_read_errors [2] [mkC 0] [] rfl

/-- C10 counterexample: on an undecodable backing file, `oldest_contacts`
returns `Ok []` — it silently substitutes the empty list instead of reporting
the decode failure as an error as the claim asserts. -/
theorem c10_counterexample :
    parse_contacts [2] = none ∧
    oldest_contacts (some [2]) 1 = Except.ok [] := ⟨rfl, rfl⟩

/-- C10 amended: `oldest_contacts` swallows every read failure, including
decode failures: it logs and substitutes the empty list, returning `Ok []`,
so its callers cannot distinguish an empty cache from a corrupt one; only
`read_bootstrap_file` reports the failure. -/
theorem c10_oldest_swallows_decode_failure (b : List Nat) (n : Nat)
    (hb : parse_contacts b = none) :
    oldest_contacts (some b) n = Except.ok [] := by
  simp [oldest_contacts, read_or_empty, read_bootstrap_file, hb]

/-- C10 witness: the amended statement at the concrete corrupt buffer `[2]`. -/
theorem c10_oldest_swallows_decode_failure_witness :
    oldest_contacts (some [2]) 3 = Except.ok [] :=
  c10_oldest_swallows_decode_failure [2] 3 rfl

/-- C6: for every persisted list L and every n, `oldest_contacts` returns the
last `min n L.length` elements of L in reversed order (oldest, i.e. last,
element first); for `n ≥ L.length` it returns all of L reversed without
error, and for `n = 0` it returns the empty sequence. -/
theorem c6_oldest_semantics (l : Contacts) (n : Nat) :
    oldest_contacts (some (serialise_contacts l)) n =
      Except.ok ((l.drop (l.length - n)).reverse) ∧
    (l.drop (l.length - n)).reverse.length = min n l.length ∧
    (l.length ≤ n →
      oldest_contacts (some (serialise_contacts l)) n = Except.ok l.reverse) ∧
    oldest_contacts (some (serialise_contacts l)) 0 = Except.ok [] := by
  have hr : read_or_empty (some (serialise_contacts l)) = l :=
    read_or_empty_serialise l
  have hmain : oldest_contacts (some (serialise_contacts l)) n =
      Except.ok (l.reverse.take n) := by
    rw [oldest_contacts, hr]
  refine ⟨?_, ?_, ?_, ?_⟩
  · rw [hmain, List.take_reverse]
  · rw [← List.take_reverse]
    simp [List.length_take]
  · intro h
    rw [hmain, List.take_of_length_le (by simpa using h)]
  · rw [oldest_contacts, hr]
    simp

/-- C6 witness: the oldest-first reversal at a concrete two-element list with
an over-long request. -/
theorem c6_oldest_semantics_witness :
    oldest_contacts (some (serialise_contacts [mkC 0, mkC 1])) 5 =
      Except.ok [mkC 1, mkC 0] := by
  have h := (c6_oldest_semantics [mkC 0, mkC 1] 5).2.2.1 (by decide)
  simpa using h

/-- C2 counterexample: at the claim's own hypotheses (non-empty list below
capacity, duplicate-free add batch disjoint from it), the merge loop prepends
one element at a time, so the consumed elements end up at the front in
REVERSED order: the first element of add does not land at index 0. -/
theorem c2_counterexample :
    ([mkC 0] : Contacts) ≠ [] ∧ [mkC 0].length < MAX_CONTACTS ∧
    ([mkC 1, mkC 2] : Contacts).Nodup ∧
    (∀ c ∈ ([mkC 1, mkC 2] : Contacts), c ∉ ([mkC 0] : Contacts)) ∧
    mergeLoop [mkC 0] [mkC 1, mkC 2] = [mkC 2, mkC 1, mkC 0] ∧
    mergeLoop [mkC 0] [mkC 1, mkC 2] ≠ [mkC 1, mkC 2, mkC 0] := by
  decide

/-- C2 amended: the loop's effect equals prepending the consumed prefix of
add as a block in reversed order: the result is
`(add.take (capacity - L.length)).reverse ++ L`, so the LAST consumed element
of add lands at index 0 and add's first element ends up adjacent to L's old
head. -/
theorem c2_merge_block (L add : Contacts) :
    mergeLoop L add = (add.take (MAX_CONTACTS - L.length)).reverse ++ L :=
  mergeLoop_eq L add

/-- C3: the list persisted by any `insert_contacts` call contains no two
structurally equal contacts, and the deduplication performed before
persisting keeps the first occurrence of each contact in order. -/
theorem c3_written_nodup (fs : FileState) (add prune : Contacts) :
    (writtenList fs add prune).Nodup ∧
    writtenList fs add prune =
      dedupFirstSpec (merge_core (read_or_empty fs) add prune) ∧
    insert_contacts fs add prune =
      Except.ok (some (serialise_contacts (writtenList fs add prune))) :=
  ⟨nodup_unique _, unique_eq_dedupFirstSpec _, rfl⟩

/-- A batch of 1501 pairwise-distinct contacts, one more than the capacity. -/
def bigAdd1501 : Contacts := (List.range 1501).map mkC

theorem mkC_injective : Function.Injective mkC := by
  intro a b h
  simpa [mkC] using h

theorem bigAdd1501_nodup : bigAdd1501.Nodup :=
  (List.nodup_range 1501).map mkC_injective

/-- C1: the capacity bound fails on the code: a single update of an empty
persisted list with 1501 distinct contacts persists all 1501 of them, because
the empty-list branch of `insert_contacts` assigns the add batch verbatim and
never consults `MAX_CONTACTS`. -/
theorem c1_capacity_violation :
    writtenList (some (serialise_contacts [])) bigAdd1501 [] = bigAdd1501 ∧
    bigAdd1501.length = 1501 ∧
    MAX_CONTACTS <
      (writtenList (some (serialise_contacts [])) bigAdd1501 []).length ∧
    update_contacts (some (serialise_contacts [])) bigAdd1501 [] =
      Except.ok (some (serialise_contacts bigAdd1501)) := by
  have hw : writtenList (some (serialise_contacts [])) bigAdd1501 [] =
      bigAdd1501 := by
    rw [writtenList, read_or_empty_serialise, merge_core_nil,
      unique_eq_self _ bigAdd1501_nodup]
  have hlen : bigAdd1501.length = 1501 := by simp [bigAdd1501]
  refine ⟨hw, hlen, ?_, ?_⟩
  · rw [hw, hlen]
    norm_num [MAX_CONTACTS]
  · rw [update_eq, hw]

/-- The 1500 non-head elements of `bigAdd1501`. -/
def tail1500 : Contacts := (List.range 1500).map (fun k => mkC (k + 1))

theorem bigAdd1501_eq : bigAdd1501 = mkC 0 :: tail1500 := by
  rw [bigAdd1501, tail1500, List.range_succ_eq_map, List.map_cons, List.map_map]
  rfl

theorem tail1500_length : tail1500.length = 1500 := by simp [tail1500]

/-- C8 counterexample: from an externally crafted persisted list of 1501
distinct contacts, pruning one and adding a fresh contact D in the same call
leaves the post-prune list at full capacity, so the merge loop discards D
entirely: D is not at index 0 (it is absent altogether). -/
theorem c8_counterexample :
    mkC 0 ∈ bigAdd1501 ∧ mkC 2000 ∉ bigAdd1501 ∧
    mkC 2000 ∉ writtenList (some (serialise_contacts bigAdd1501))
      [mkC 2000] [mkC 0] := by
  have hD : mkC 2000 ∉ bigAdd1501 := by
    intro h
    rcases List.mem_map.mp h with ⟨k, hk, hmk⟩
    have hk2000 : k = 2000 := mkC_injective hmk
    subst hk2000
    exact absurd (List.mem_range.mp hk) (by norm_num)
  refine ⟨?_, hD, ?_⟩
  · exact List.mem_map.mpr ⟨0, List.mem_range.mpr (by norm_num), rfl⟩
  · rw [writtenList, read_or_empty_serialise]
    intro hmem
    have hfil : bigAdd1501.filter (fun x => decide (x ∉ [mkC 0])) = tail1500 := by
      rw [bigAdd1501_eq, List.filter_cons]
      have h0 : decide (mkC 0 ∉ [mkC 0]) = false := by decide
      rw [h0]
      simp only [Bool.false_eq_true, if_false]
      refine List.filter_eq_self.mpr fun a ha => ?_
      rcases List.mem_map.mp ha with ⟨k, _, hmk⟩
      subst hmk
      have hne : mkC (k + 1) ≠ mkC 0 := fun hc => Nat.succ_ne_zero k (mkC_injective hc)
      simp [hne]
    have hcore : merge_core bigAdd1501 [mkC 2000] [mkC 0] =
        mergeLoop tail1500 ([mkC 2000].filter (fun x => decide (x ∉ tail1500))) := by
      rw [merge_core_prune_pos _ _ _ (by norm_num), hfil,
        if_neg (by rw [tail1500_length]; norm_num)]
    rw [hcore, mergeLoop_eq, tail1500_length] at hmem
    have hz : MAX_CONTACTS - 1500 = 0 := by norm_num [MAX_CONTACTS]
    rw [hz, List.take_zero, List.reverse_nil, List.nil_append] at hmem
    have hmem2 := (mem_unique _ _).mp hmem
    rcases List.mem_map.mp hmem2 with ⟨k, hk, hmk⟩
    have hk1 : k + 1 = 2000 := mkC_injective hmk
    have hk2 : k = 1999 := by omega
    subst hk2
    exact absurd (List.mem_range.mp hk) (by norm_num)

/-- C8 amended: provided the persisted list L respects the capacity bound
(`L.length ≤ MAX_CONTACTS`), for P ∈ L and a new contact D ∉ L, a successful
update(add=[D], prune=[P]) persists D at index 0, P is absent, and the
remaining contacts (first occurrences of the non-pruned ones) keep their
relative order, regardless of P's prior position. -/
theorem c8_prune_then_add (L : Contacts) (P D : Contact)
    (hP : P ∈ L) (hD : D ∉ L) (hlen : L.length ≤ MAX_CONTACTS) :
    writtenList (some (serialise_contacts L)) [D] [P] =
      D :: unique (L.filter (fun x => decide (x ∉ [P]))) ∧
    (writtenList (some (serialise_contacts L)) [D] [P]).head? = some D ∧
    P ∉ writtenList (some (serialise_contacts L)) [D] [P] ∧
    (writtenList (some (serialise_contacts L)) [D] [P]).tail.Sublist L ∧
    (∀ c, c ∈ (writtenList (some (serialise_contacts L)) [D] [P]).tail ↔
      (c ∈ L ∧ c ≠ P)) := by
  set Lp : Contacts := L.filter (fun x => decide (x ∉ [P])) with hLp
  have hPp : decide (P ∉ [P]) = false := by simp
  have hlenp : Lp.length < L.length := by
    rw [hLp]
    exact List.length_filter_lt_length_iff_exists.mpr
      ⟨P, hP, by simp [hPp]⟩
  have hLpsub : Lp.Sublist L := List.filter_sublist L
  have hDLp : D ∉ Lp := fun hc => hD (hLpsub.mem hc)
  have hfilD : ([D] : Contacts).filter (fun x => decide (x ∉ Lp)) = [D] := by
    refine List.filter_eq_self.mpr fun a ha => ?_
    rcases List.mem_cons.mp ha with h | h
    · subst h; simp [hDLp]
    · exact absurd h (List.not_mem_nil a)
  have hcore : merge_core L [D] [P] =
      if Lp.length = 0 then [D] else mergeLoop Lp [D] := by
    rw [merge_core_prune_pos _ _ _ (by norm_num), ← hLp, hfilD]
  have hw : writtenList (some (serialise_contacts L)) [D] [P] =
      D :: unique Lp := by
    rw [writtenList, read_or_empty_serialise, hcore]
    by_cases h0 : Lp.length = 0
    · rw [if_pos h0]
      rw [List.length_eq_zero] at h0
      rw [h0]
      rfl
    · rw [if_neg h0, mergeLoop_eq]
      have h1 : ([D] : Contacts).length ≤ MAX_CONTACTS - Lp.length := by
        simp only [List.length_cons, List.length_nil]
        omega
      rw [List.take_of_length_le h1]
      simp only [List.reverse_cons, List.reverse_nil, List.nil_append,
        List.cons_append, List.nil_append]
      rw [unique, uniqueAux]
      rw [if_neg (List.not_mem_nil D)]
      rw [uniqueAux_cons_not_mem D [] Lp hDLp]
      rfl
  have hPD : P ≠ D := fun hc => hD (hc ▸ hP)
  have hmemLp : ∀ c, c ∈ Lp ↔ (c ∈ L ∧ c ≠ P) := by
    intro c
    rw [hLp, List.mem_filter]
    simp
  refine ⟨hw, by rw [hw]; rfl, ?_, ?_, ?_⟩
  · rw [hw]
    intro hc
    rcases List.mem_cons.mp hc with h | h
    · exact hPD h
    · exact ((hmemLp P).mp ((mem_unique _ _).mp h)).2 rfl
  · rw [hw]
    exact ((unique_sublist Lp).trans hLpsub)
  · intro c
    rw [hw]
    simp only [List.tail_cons]
    rw [mem_unique, hmemLp]

/-- C8 witness: the amended statement at a concrete two-element list, pruning
its last element while adding a fresh one. -/
theorem c8_prune_then_add_witness :
    (writtenList (some (serialise_contacts [mkC 0, mkC 1])) [mkC 2] [mkC 1]).head? =
      some (mkC 2) :=
  (c8_prune_then_add [mkC 0, mkC 1] (mkC 1) (mkC 2)
    (by decide) (by decide) (by norm_num [MAX_CONTACTS])).2.1

theorem writtenList_serialise (W c p : Contacts) :
    writtenList (some (serialise_contacts W)) c p = unique (merge_core W c p) := by
  rw [writtenList, read_or_empty_serialise]

/-- Re-running the pure merge/dedup pipeline on its own output with the same
add batch is a fixed point, provided the starting list and the batch are
duplicate-free. -/
theorem written_idem (b0 C : Contacts) (hb : b0.Nodup) (hC : C.Nodup) :
    unique (merge_core (unique (merge_core b0 C [])) C []) =
      unique (merge_core b0 C []) := by
  by_cases hb0 : b0 = []
  · subst hb0
    rw [merge_core_nil, unique_eq_self C hC]
    by_cases hc : C = []
    · subst hc
      rw [merge_core_nil]
      rfl
    · have hlc : C.length ≠ 0 := fun h => hc (List.length_eq_zero.mp h)
      rw [merge_core_no_prune, if_neg hlc]
      have hfil : C.filter (fun x => decide (x ∉ C)) = [] :=
        List.filter_eq_nil_iff.mpr fun a ha => by simp [ha]
      rw [hfil, mergeLoop_eq]
      simp only [List.take_nil, List.reverse_nil, List.nil_append]
      exact unique_eq_self C hC
  · have hlb0 : b0.length ≠ 0 := fun h => hb0 (List.length_eq_zero.mp h)
    have hinner : merge_core b0 C [] =
        ((C.filter (fun x => decide (x ∉ b0))).take
          (MAX_CONTACTS - b0.length)).reverse ++ b0 := by
      rw [merge_core_no_prune, if_neg hlb0, mergeLoop_eq]
    rw [hinner]
    set c1 := C.filter (fun x => decide (x ∉ b0)) with hc1
    set k := MAX_CONTACTS - b0.length with hk
    set M := (c1.take k).reverse ++ b0 with hM
    have hc1nodup : c1.Nodup := hC.filter _
    have hMnodup : M.Nodup := by
      rw [hM]
      refine (List.nodup_reverse.mpr
        (hc1nodup.sublist (List.take_sublist k c1))).append hb ?_
      intro x hx1 hx2
      have hx3 : x ∈ c1 := (List.take_sublist k c1).mem (List.mem_reverse.mp hx1)
      rw [hc1, List.mem_filter] at hx3
      exact absurd hx2 (by simpa using hx3.2)
    rw [unique_eq_self M hMnodup]
    have hMne : M ≠ [] := by
      rw [hM]
      exact List.append_ne_nil_of_right_ne_nil _ hb0
    have hMlen : M.length ≠ 0 := fun h => hMne (List.length_eq_zero.mp h)
    rw [merge_core_no_prune, if_neg hMlen]
    by_cases hcase : c1.length ≤ k
    · have htake : c1.take k = c1 := List.take_of_length_le hcase
      have hc2 : C.filter (fun x => decide (x ∉ M)) = [] := by
        refine List.filter_eq_nil_iff.mpr fun a ha => ?_
        simp only [decide_eq_true_eq, Decidable.not_not]
        rw [hM, List.mem_append]
        by_cases hab : a ∈ b0
        · exact Or.inr hab
        · refine Or.inl (List.mem_reverse.mpr ?_)
          rw [htake, hc1, List.mem_filter]
          exact ⟨ha, by simpa using hab⟩
      rw [hc2, mergeLoop_eq]
      simp only [List.take_nil, List.reverse_nil, List.nil_append]
      exact unique_eq_self M hMnodup
    · have hmin : min k c1.length = k :=
        Nat.min_eq_left (Nat.le_of_lt (Nat.lt_of_not_le hcase))
      have hMlen2 : MAX_CONTACTS ≤ M.length := by
        rw [hM, List.length_append, List.length_reverse, List.length_take, hmin]
        omega
      rw [mergeLoop_eq]
      have h0 : MAX_CONTACTS - M.length = 0 := by omega
      rw [h0, List.take_zero, List.reverse_nil, List.nil_append]
      exact unique_eq_self M hMnodup

/-- C7 amended: provided the starting persisted list and the add batch C are
both duplicate-free — every list the store itself writes is — after one
successful update(add=C, prune=[]) every further identical update leaves the
persisted file unchanged.  (From an externally crafted duplicate-laden
persisted state the original claim fails: the first call can discard C at
capacity while dedup shrinks the list, so the second call still changes it.) -/
theorem c7_idempotent_readd (fs fs1 : FileState) (C : Contacts)
    (hb : (read_or_empty fs).Nodup) (hC : C.Nodup)
    (h1 : update_contacts fs C [] = Except.ok fs1) :
    update_contacts fs1 C [] = Except.ok fs1 := by
  rw [update_eq] at h1
  have hfs1 : some (serialise_contacts (writtenList fs C [])) = fs1 :=
    Except.ok.inj h1
  subst hfs1
  rw [update_eq, writtenList_serialise, writtenList,
    written_idem (read_or_empty fs) C hb hC]

/-- C7 witness: the amended statement at a concrete absent file and
one-element batch. -/
theorem c7_idempotent_readd_witness :
    update_contacts (some (serialise_contacts [mkC 0])) [mkC 0] [] =
      Except.ok (some (serialise_contacts [mkC 0])) := by
  have h1 : update_contacts none [mkC 0] [] =
      Except.ok (some (serialise_contacts [mkC 0])) := by
    rw [update_eq]
    have hw : writtenList none [mkC 0] [] = [mkC 0] := by decide
    rw [hw]
  exact c7_idempotent_readd none (some (serialise_contacts [mkC 0])) [mkC 0]
    (by decide) (by decide) h1

/-- C7 counterexample: starting from an externally written file holding 1500
copies of one contact, the first update(add=[y]) discards y (the list is at
capacity before dedup) while dedup shrinks the persisted list to one element,
so the second identical update prepends y and CHANGES the persisted list —
idempotence after one successful call fails for this persisted state. -/
theorem c7_counterexample :
    update_contacts (some (serialise_contacts (List.replicate 1500 (mkC 0))))
      [mkC 1] [] = Except.ok (some (serialise_contacts [mkC 0])) ∧
    update_contacts (some (serialise_contacts [mkC 0])) [mkC 1] [] =
      Except.ok (some (serialise_contacts [mkC 1, mkC 0])) ∧
    some (serialise_contacts [mkC 1, mkC 0]) ≠ some (serialise_contacts [mkC 0]) := by
  refine ⟨?_, ?_, ?_⟩
  · rw [update_eq, writtenList_serialise]
    have hfil : ([mkC 1] : Contacts).filter
        (fun x => decide (x ∉ List.replicate 1500 (mkC 0))) = [mkC 1] := by
      refine List.filter_eq_self.mpr fun a ha => ?_
      have ha2 : a = mkC 1 := by
        rcases List.mem_cons.mp ha with h | h
        · exact h
        · exact absurd h (List.not_mem_nil a)
      subst ha2
      have hnm : mkC 1 ∉ List.replicate 1500 (mkC 0) := by
        intro hc
        exact absurd (List.eq_of_mem_replicate hc) (by decide)
      exact decide_eq_true hnm
    have hlen : (List.replicate 1500 (mkC 0)).length ≠ 0 := by
      rw [List.length_replicate]
      norm_num
    rw [merge_core_no_prune, if_neg hlen, hfil, mergeLoop_eq]
    have h0 : MAX_CONTACTS - (List.replicate 1500 (mkC 0)).length = 0 := by
      rw [List.length_replicate]
      norm_num [MAX_CONTACTS]
    rw [h0, List.take_zero, List.reverse_nil, List.nil_append]
    have h1500 : (1500 : Nat) = 1499 + 1 := by norm_num
    rw [h1500, unique_replicate]
  · rw [update_eq]
    have hw : writtenList (some (serialise_contacts [mkC 0])) [mkC 1] [] =
        [mkC 1, mkC 0] := by decide
    rw [hw]
  · intro h
    have h2 := serialise_injective _ _ (Option.some.inj h)
    exact absurd h2 (by decide)

end Crust
